import Mathlib

/-!
Shallow embedding of `itsee_to_open_cbgm.py`: a linear pipeline of tree
transformations over an in-memory XML document, converting TEI XML produced by
the ITSEE Collation Editor into TEI XML consumable by the open-cbgm library.

XML elements are modelled as a tag, an association list of attributes, an
optional text content, and an ordered list of children.  All elements of the
documents handled by the script live in the single TEI namespace, so namespaces
are left implicit and tags are plain strings.  Each `xpath`-driven loop of the
source becomes a structural recursion over the tree; a Python exception raised
inside a loop is modelled by an `Option String` error component, paired with
the state of the tree at the moment the exception escapes (the loops mutate the
tree in place, so work done before the exception remains visible).
-/

namespace ItseeToOpenCbgm

/-- An XML element: tag, attribute list, optional text, ordered children. -/
inductive Elem : Type where
  | mk (tag : String) (attrs : List (String × String)) (text : Option String)
       (children : List Elem)

/-- The tag of an element. -/
def Elem.tag : Elem → String
  | .mk t _ _ _ => t

/-- The attribute list of an element. -/
def Elem.attrs : Elem → List (String × String)
  | .mk _ a _ _ => a

/-- The text content of an element. -/
def Elem.text : Elem → Option String
  | .mk _ _ x _ => x

/-- The children of an element. -/
def Elem.children : Elem → List Elem
  | .mk _ _ _ cs => cs

/-- First value bound to a key in an attribute list (Python `elem.get(k)`). -/
def lookupA : List (String × String) → String → Option String
  | [], _ => none
  | p :: ps, k => if p.1 = k then some p.2 else lookupA ps k

/-- Python `elem.get(k)` on an element. -/
def getAttr (e : Elem) (k : String) : Option String :=
  lookupA e.attrs k

/-- Python `elem.set(k, v)`: replace the value in place if the key is present,
otherwise append the pair (lxml keeps attribute order on replacement). -/
def setA : List (String × String) → String → String → List (String × String)
  | [], k, v => [(k, v)]
  | p :: ps, k, v => if p.1 = k then (k, v) :: ps else p :: setA ps k v

/-- Python `elem.attrib.pop(k)` for a key known to be present: drop the binding. -/
def popA : List (String × String) → String → List (String × String)
  | [], _ => []
  | p :: ps, k => if p.1 = k then popA ps k else p :: popA ps k

/-- Strong induction principle for `Elem`: to prove a property of every
element it suffices to prove it for `Elem.mk` assuming it for every child. -/
def elemInd {P : Elem → Prop}
    (h : ∀ t a x cs, (∀ c ∈ cs, P c) → P (Elem.mk t a x cs)) : ∀ e, P e
  | .mk t a x cs => h t a x cs (fun c hc => elemInd h c)
decreasing_by
  have := List.sizeOf_lt_of_mem hc
  simp only [Elem.mk.sizeOf_spec]
  omega

/-! ### Pass 1: `strip_unitless_apps` -/

/-- An `<app>` element with neither a `from` nor a `to` attribute, i.e. one
matched by the xpath `//tei:app[not(@from) and not(@to)]`. -/
def isUnitlessApp (e : Elem) : Bool :=
  e.tag == "app" && (getAttr e "from").isNone && (getAttr e "to").isNone

mutual
/-- The function `strip_unitless_apps`: remove every `<app>` element without `from` and
`to` attributes from the tree. -/
def strip_unitless_apps : Elem → Elem
  | .mk t a x cs => .mk t a x (strip_unitless_apps_list cs)

/-- The function `strip_unitless_apps` on a child list: matched children are removed
(together with their subtrees), the rest are processed recursively. -/
def strip_unitless_apps_list : List Elem → List Elem
  | [] => []
  | c :: cs =>
    if isUnitlessApp c then strip_unitless_apps_list cs
    else strip_unitless_apps c :: strip_unitless_apps_list cs
end

/-! ### Pass 2: `strip_wit_subelements` -/

mutual
/-- The function `strip_wit_subelements`: remove every `<wit>` element from the tree. -/
def strip_wit_subelements : Elem → Elem
  | .mk t a x cs => .mk t a x (strip_wit_subelements_list cs)

/-- The function `strip_wit_subelements` on a child list. -/
def strip_wit_subelements_list : List Elem → List Elem
  | [] => []
  | c :: cs =>
    if c.tag = "wit" then strip_wit_subelements_list cs
    else strip_wit_subelements c :: strip_wit_subelements_list cs
end

/-! ### Pass 3: `unescape_underdots` -/

/-- A node matched by the xpath `//tei:lem|//tei:rdg`. -/
def isReadingTag (t : String) : Bool :=
  t == "lem" || t == "rdg"

/-- The combining underdot character U+0323. -/
def underdot : String := "̣"

/-- Python `str.replace` on character lists: replace each non-overlapping
occurrence of `pat` (non-empty) by `rep`, scanning left to right.  The `fuel`
argument only drives the structural recursion; it is initialised to the length
of the scanned list, which the scan never exceeds. -/
def replaceAux (pat rep : List Char) : Nat → List Char → List Char
  | _, [] => []
  | 0, l => l
  | fuel + 1, c :: cs =>
    if pat.isPrefixOf (c :: cs) then
      rep ++ replaceAux pat rep fuel ((c :: cs).drop pat.length)
    else c :: replaceAux pat rep fuel cs

/-- Python `s.replace(pat, rep)` for a non-empty pattern. -/
def strReplace (s pat rep : String) : String :=
  String.mk (replaceAux pat.data rep.data s.data.length s.data)

mutual
/-- The function `unescape_underdots`: in the text of every `<lem>` and `<rdg>` element,
replace the escaped character code `&#803;` by the combining underdot.
(The source guards the replacement with a containment test; replacing in a
string without an occurrence is the identity, so the result is the same.) -/
def unescape_underdots : Elem → Elem
  | .mk t a x cs =>
    .mk t a
      (if isReadingTag t then x.map (fun s => strReplace s "&#803;" underdot) else x)
      (unescape_underdots_list cs)

/-- The function `unescape_underdots` on a child list. -/
def unescape_underdots_list : List Elem → List Elem
  | [] => []
  | c :: cs => unescape_underdots c :: unescape_underdots_list cs
end

/-! ### Pass 4: `strip_om_text` -/

mutual
/-- The function `strip_om_text`: clear the text of every `<lem>` or `<rdg>` element having
`type="om"`. -/
def strip_om_text : Elem → Elem
  | .mk t a x cs =>
    .mk t a
      (if isReadingTag t && (lookupA a "type" == some "om") then none else x)
      (strip_om_text_list cs)

/-- The function `strip_om_text` on a child list. -/
def strip_om_text_list : List Elem → List Elem
  | [] => []
  | c :: cs => strip_om_text c :: strip_om_text_list cs
end

/-! ### Pass 5: `sub_segs_for_apps` -/

/-- The direct `<rdg>` children of an element (xpath `tei:rdg`). -/
def rdgChildren (cs : List Elem) : List Elem :=
  cs.filter (fun c => c.tag == "rdg")

mutual
/-- The function `sub_segs_for_apps`: replace every `<app>` element having exactly one
`<rdg>` child with a `<seg>` element whose text is the text of that reading. -/
def sub_segs_for_apps : Elem → Elem
  | .mk t a x cs => .mk t a x (sub_segs_for_apps_list cs)

/-- The function `sub_segs_for_apps` on a child list: a single-reading `<app>` child is
replaced in place by the `<seg>`; every other child is processed recursively. -/
def sub_segs_for_apps_list : List Elem → List Elem
  | [] => []
  | c :: cs =>
    if c.tag = "app" then
      match rdgChildren c.children with
      | [r] => Elem.mk "seg" [] r.text [] :: sub_segs_for_apps_list cs
      | _ => sub_segs_for_apps c :: sub_segs_for_apps_list cs
    else sub_segs_for_apps c :: sub_segs_for_apps_list cs
end

/-! ### Pass 6: `add_app_notes` -/

/-- The book index to SBL abbreviation dictionary `books_by_n`. -/
def books_by_n : List (String × String) :=
  [("B01", "Matt"), ("B02", "Mark"), ("B03", "Luke"), ("B04", "John"),
   ("B05", "Acts"), ("B06", "Rom"), ("B07", "1 Cor"), ("B08", "2 Cor"),
   ("B09", "Gal"), ("B10", "Eph"), ("B11", "Phil"), ("B12", "Col"),
   ("B13", "1 Thess"), ("B14", "2 Thess"), ("B15", "1 Tim"), ("B16", "2 Tim"),
   ("B17", "Titus"), ("B18", "Phlm"), ("B19", "Heb"), ("B20", "Jas"),
   ("B21", "1 Pet"), ("B22", "2 Pet"), ("B23", "1 John"), ("B24", "2 John"),
   ("B25", "3 John"), ("B26", "Jude"), ("B27", "Rev")]

/-- Python `re.match` of the pattern `(B\d+)(K\d+)(V\d+)` against `s`: anchored at the start of `s`, three
groups, each a letter followed by one or more digits; trailing characters after
the third group are allowed.  Returns the three matched groups. -/
def matchBCV (s : String) : Option (String × String × String) :=
  match s.data with
  | 'B' :: r1 =>
    let ds1 := r1.takeWhile Char.isDigit
    if ds1.isEmpty then none else
    match r1.dropWhile Char.isDigit with
    | 'K' :: r2 =>
      let ds2 := r2.takeWhile Char.isDigit
      if ds2.isEmpty then none else
      match r2.dropWhile Char.isDigit with
      | 'V' :: r3 =>
        let ds3 := r3.takeWhile Char.isDigit
        if ds3.isEmpty then none
        else some (String.mk ('B' :: ds1), String.mk ('K' :: ds2),
                   String.mk ('V' :: ds3))
      | _ => none
    | _ => none
  | _ => none

/-- The label text built by `add_app_notes` from the book abbreviation, the
matched chapter and verse groups, and the `from`/`to` attributes:
`<abbr> <chapter-digits>:<verse-digits>[/<from>][-<to>]`, the dash suffix
added exactly when `to` is present and differs from `from`. -/
def labelText (abbr kGroup vGroup : String) (appFrom appTo : Option String) :
    String :=
  let s1 := abbr ++ " " ++ String.mk (kGroup.data.drop 1) ++ ":" ++
    String.mk (vGroup.data.drop 1)
  let s2 := match appFrom with
    | some f => s1 ++ "/" ++ f
    | none => s1
  match appTo with
  | some t => if some t ≠ appFrom then s2 ++ "-" ++ t else s2
  | none => s2

/-- The `<fs>` feature-set element holding the default connectivity value. -/
def connectivityFs : Elem :=
  .mk "fs" [] none
    [.mk "f" [("name", "connectivity")] none
      [.mk "numeric" [("value", "10")] none []]]

/-- The `<graph type="directed">` element with one `<node>` per reading
identifier and no edges. -/
def stemmaGraph (rdgIds : List String) : Elem :=
  .mk "graph" [("type", "directed")] none
    (rdgIds.map (fun i => Elem.mk "node" [("n", i)] none []))

/-- The finished `<note>` element: an optional `<label>`, the connectivity
feature set, and the local stemma graph. -/
def fullNote (label : Option String) (rdgIds : List String) : Elem :=
  .mk "note" [] none
    ((match label with
      | some l => [Elem.mk "label" [] (some l) []]
      | none => []) ++ [connectivityFs, stemmaGraph rdgIds])

/-- The bare `<note>` element appended to the apparatus before any of its
content is built. -/
def emptyNote : Elem := .mk "note" [] none []

/-- The `n` attributes of the direct `<rdg>` children of an apparatus, in
order, skipping readings without an `n` attribute. -/
def rdgIdsOf (e : Elem) : List String :=
  (rdgChildren e.children).filterMap (fun r => getAttr r "n")

/-- One iteration of the `add_app_notes` loop, reduced to the note it attaches
to the apparatus.  The source appends a bare `<note>` first and only then
builds the label, so an exception while building the label (a `TypeError` when
the apparatus has no `n` attribute, since `re.match` rejects `None`, or a
`KeyError` when the book code is not a key of `books_by_n`) leaves the empty
note attached.  Returns the exception, if any, and the attached note. -/
def appNoteResult (app : Elem) : Option String × Elem :=
  match getAttr app "n" with
  | none => (some "TypeError", emptyNote)
  | some n =>
    match matchBCV n with
    | none => (none, fullNote none (rdgIdsOf app))
    | some (b, k, v) =>
      match lookupA books_by_n b with
      | none => (some "KeyError", emptyNote)
      | some abbr =>
        (none,
         fullNote (some (labelText abbr k v (getAttr app "from") (getAttr app "to")))
           (rdgIdsOf app))

/-- Append a child at the end of the child list of an element. -/
def appendChild (e : Elem) (c : Elem) : Elem :=
  .mk e.tag e.attrs e.text (e.children ++ [c])

/-- One iteration of the `add_app_notes` loop on a single apparatus element:
the note produced by `appNoteResult` is appended as the last child; the error
component reports the escaped exception, if any. -/
def appNoteStep (app : Elem) : Option String × Elem :=
  (appNoteResult app).map id (appendChild app)

mutual
/-- The function `add_app_notes`: append the annotation `<note>` to every `<app>` element,
in document order.  The first exception aborts the pass; the returned element
is the state of the tree at that moment (earlier apparatuses keep their
finished notes, the failing apparatus keeps the bare note, later apparatuses
are untouched). -/
def add_app_notes : Elem → Option String × Elem
  | .mk t a x cs =>
    if t = "app" then
      match appNoteResult (.mk t a x cs) with
      | (some err, note) => (some err, .mk t a x (cs ++ [note]))
      | (none, note) =>
        match add_app_notes_list cs with
        | (r, cs') => (r, .mk t a x (cs' ++ [note]))
    else
      match add_app_notes_list cs with
      | (r, cs') => (r, .mk t a x cs')

/-- The function `add_app_notes` on a child list, aborting at the first exception. -/
def add_app_notes_list : List Elem → Option String × List Elem
  | [] => (none, [])
  | c :: cs =>
    match add_app_notes c with
    | (some err, c') => (some err, c' :: cs)
    | (none, c') =>
      match add_app_notes_list cs with
      | (r, cs') => (r, c' :: cs')
end

/-! ### Pass 7: `update_app_n` -/

/-- One iteration of the `update_app_n` loop on an attribute list: compute
`new_app_n = app_n + 'U' + app_from`, append `'-' + app_to` when `app_to`
differs from `app_from`, set `n` and pop `from` and `to`.  String
concatenation with a missing (`None`) attribute raises a `TypeError` before
any mutation happens; on success the updated attribute list is returned. -/
def updateAppNAttrs (a : List (String × String)) :
    Option String × List (String × String) :=
  match lookupA a "n", lookupA a "from" with
  | some n, some f =>
    match lookupA a "to" with
    | some t =>
      let newN := if t ≠ f then n ++ "U" ++ f ++ "-" ++ t else n ++ "U" ++ f
      (none, popA (popA (setA a "n" newN) "from") "to")
    | none =>
      -- `app_to` is `None` and `app_from` is not, so `app_to != app_from`
      -- holds and `'-' + app_to` raises before anything is mutated.
      (some "TypeError", a)
  | _, _ => (some "TypeError", a)

mutual
/-- The function `update_app_n`: rewrite the `n` attribute of every `<app>` element from
its `from`/`to` attributes and remove those attributes, in document order,
aborting at the first exception (the tree state at that moment is kept). -/
def update_app_n : Elem → Option String × Elem
  | .mk t a x cs =>
    if t = "app" then
      match updateAppNAttrs a with
      | (some err, _) => (some err, .mk t a x cs)
      | (none, a') =>
        match update_app_n_list cs with
        | (r, cs') => (r, .mk t a' x cs')
    else
      match update_app_n_list cs with
      | (r, cs') => (r, .mk t a x cs')

/-- The function `update_app_n` on a child list, aborting at the first exception. -/
def update_app_n_list : List Elem → Option String × List Elem
  | [] => (none, [])
  | c :: cs =>
    match update_app_n c with
    | (some err, c') => (some err, c' :: cs)
    | (none, c') =>
      match update_app_n_list cs with
      | (r, cs') => (r, c' :: cs')
end

/-! ### Pass 8: `get_wits` and `add_tei_header` -/

/-- Worker for `splitTokens`: `tok` is the current token, accumulated in
reverse; whitespace closes the token, a final non-empty token is emitted. -/
def splitTokensAux : List Char → List Char → List String
  | [], tok => if tok.isEmpty then [] else [String.mk tok.reverse]
  | c :: cs, tok =>
    if c.isWhitespace then
      if tok.isEmpty then splitTokensAux cs []
      else String.mk tok.reverse :: splitTokensAux cs []
    else splitTokensAux cs (c :: tok)

/-- Python `str.split()`: split on runs of whitespace, no empty tokens. -/
def splitTokens (s : String) : List String :=
  splitTokensAux s.data []

/-- Strip a single trailing `*` or `V` (et videtur) marker — Python
`wit_str.endswith('*') or wit_str.endswith('V')` followed by `wit_str[:-1]`. -/
def stripMarker (w : String) : String :=
  if w.data.getLast? == some '*' || w.data.getLast? == some 'V' then
    String.mk w.data.dropLast
  else w

/-- Record one witness token: strip its marker and append it to the
accumulated list unless already present (first-occurrence order). -/
def addWit (acc : List String) (tok : String) : List String :=
  let w := stripMarker tok
  if w ∈ acc then acc else acc ++ [w]

mutual
/-- All `<rdg>` elements of the tree in document order (xpath `//tei:rdg`). -/
def rdgElems : Elem → List Elem
  | .mk t a x cs =>
    (if t = "rdg" then [Elem.mk t a x cs] else []) ++ rdgElemsList cs

/-- The function `rdgElems` over a child list. -/
def rdgElemsList : List Elem → List Elem
  | [] => []
  | c :: cs => rdgElems c ++ rdgElemsList cs
end

/-- The function `get_wits`: collect the distinct marker-stripped witness identifiers from
the `wit` attribute of every `<rdg>` element, in first-occurrence order.
A reading without a `wit` attribute makes `rdg.get` of `wit` followed by `split` raise an
`AttributeError` (`None` has no `split`), modelled as `none`. -/
def get_wits (e : Elem) : Option (List String) :=
  (rdgElems e).foldlM
    (fun acc rdg =>
      (getAttr rdg "wit").map (fun w => (splitTokens w).foldl addWit acc))
    []

/-- The `<teiHeader>` built by `add_tei_header`: a `<sourceDesc>` holding a
`<listWit>` with one `<witness n="...">` per collected witness identifier. -/
def teiHeaderElem (wits : List String) : Elem :=
  .mk "teiHeader" [] none
    [.mk "sourceDesc" [] none
      [.mk "listWit" [] none
        (wits.map (fun w => Elem.mk "witness" [("n", w)] none []))]]

mutual
/-- Insert `h` as the first child of the first `<TEI>` element in document
order; the flag reports whether one was found. -/
def insertHeader (h : Elem) : Elem → Bool × Elem
  | .mk t a x cs =>
    if t = "TEI" then (true, .mk t a x (h :: cs))
    else
      match insertHeaderList h cs with
      | (b, cs') => (b, .mk t a x cs')

/-- The function `insertHeader` over a child list: only the first `<TEI>` is modified. -/
def insertHeaderList (h : Elem) : List Elem → Bool × List Elem
  | [] => (false, [])
  | c :: cs =>
    match insertHeader h c with
    | (true, c') => (true, c' :: cs)
    | (false, _) =>
      match insertHeaderList h cs with
      | (b, cs') => (b, c :: cs')
end

/-- The function `add_tei_header`: compute the witness list (re-raising any exception of
`get_wits`) and insert the header as the first child of the first `<TEI>`
element (`xpath` of `//tei:TEI`, index 0; an empty result raises an `IndexError`,
modelled as `none`). -/
def add_tei_header (e : Elem) : Option Elem :=
  match get_wits e with
  | none => none
  | some ws =>
    match insertHeader (teiHeaderElem ws) e with
    | (true, e') => some e'
    | (false, _) => none

/-! ### The full pipeline (the transformation sequence of `main`) -/

/-- The eight passes of `main` in order, on an already-parsed tree.  A Python
exception in any pass aborts the run before the output is written; the aborted
run is modelled as `none`. -/
def pipeline (e : Elem) : Option Elem :=
  match add_app_notes (sub_segs_for_apps (strip_om_text (unescape_underdots
      (strip_wit_subelements (strip_unitless_apps e))))) with
  | (some _, _) => none
  | (none, e6) =>
    match update_app_n e6 with
    | (some _, _) => none
    | (none, e7) => add_tei_header e7

/-! ### Observers used to state the claims -/

mutual
/-- All elements of the tree in document order (preorder). -/
def allElems : Elem → List Elem
  | .mk t a x cs => Elem.mk t a x cs :: allElemsList cs

/-- The function `allElems` over a child list. -/
def allElemsList : List Elem → List Elem
  | [] => []
  | c :: cs => allElems c ++ allElemsList cs
end

/-- All `<app>` elements of the tree in document order. -/
def appElems (e : Elem) : List Elem :=
  (allElems e).filter (fun c => c.tag == "app")

/-- The `<note>` children of an element. -/
def noteChildren (e : Elem) : List Elem :=
  e.children.filter (fun c => c.tag == "note")

/-- The texts of all `<label>` elements of the tree, in document order. -/
def labelTexts (e : Elem) : List (Option String) :=
  ((allElems e).filter (fun c => c.tag == "label")).map Elem.text

/-- The `n` attributes of all `<app>` elements, in document order. -/
def appNs (e : Elem) : List (Option String) :=
  (appElems e).map (fun a => getAttr a "n")

/-- For each `<graph>` element of the tree: the `n` attributes of its
`<node>` children. -/
def graphNodeIds (e : Elem) : List (List String) :=
  ((allElems e).filter (fun c => c.tag == "graph")).map
    (fun g => (g.children.filter (fun c => c.tag == "node")).filterMap
      (fun nd => getAttr nd "n"))

/-- For each `<graph>` element of the tree: the tags of its children (used to
check that a local stemma holds nodes only, no edge elements). -/
def graphChildTags (e : Elem) : List (List String) :=
  ((allElems e).filter (fun c => c.tag == "graph")).map
    (fun g => g.children.map Elem.tag)

/-- Does the tree contain an `<app>` element with neither `from` nor `to`? -/
def hasUnitlessApp (e : Elem) : Bool :=
  (allElems e).any isUnitlessApp

/-- For each `<listWit>` element of the tree: the `n` attributes of its
children (the declared witness identifiers). -/
def listWitEntries (e : Elem) : List (List String) :=
  ((allElems e).filter (fun c => c.tag == "listWit")).map
    (fun l => l.children.filterMap (fun w => getAttr w "n"))

/-- All witness tokens of the tree: the whitespace-separated tokens of the
`wit` attribute of every `<rdg>` element, in document order (readings without
a `wit` attribute contribute nothing here; `get_wits` fails on them). -/
def allWitTokens (e : Elem) : List String :=
  ((rdgElems e).filterMap (fun r => getAttr r "wit")).foldr
    (fun w acc => splitTokens w ++ acc) []

/-! ### Concrete example documents -/

/-- The reading `<rdg n="1" wit="A B">alpha</rdg>`. -/
def rdgEx1 : Elem := .mk "rdg" [("n", "1"), ("wit", "A B")] (some "alpha") []

/-- The reading `<rdg n="2" wit="C">beta</rdg>`. -/
def rdgEx2 : Elem := .mk "rdg" [("n", "2"), ("wit", "C")] (some "beta") []

/-- The apparatus of the spec's worked example: `n="B01K02V03"`, `from="4"`,
`to="4"`, two readings numbered `1` and `2`. -/
def appEx1 : Elem :=
  .mk "app" [("n", "B01K02V03"), ("from", "4"), ("to", "4")] none [rdgEx1, rdgEx2]

/-- A document holding the example apparatus under `<TEI><text>…</text></TEI>`. -/
def docEx1 : Elem :=
  .mk "TEI" [] none [.mk "text" [] none [appEx1]]

/-- The number of `<note>` children of each `<app>` element, in document
order. -/
def noteCounts (e : Elem) : List Nat :=
  (appElems e).map (fun a => (noteChildren a).length)

/-- A reading with no `wit` attribute. -/
def rdgNoWit : Elem := .mk "rdg" [("n", "1")] (some "gamma") []

/-- A document containing a reading without `wit` next to one with
`wit="A B"`. -/
def docEx2 : Elem :=
  .mk "TEI" [] none
    [.mk "text" [] none
      [.mk "app" [("n", "B01K01V01"), ("from", "2"), ("to", "2")] none
        [rdgNoWit, .mk "rdg" [("n", "2"), ("wit", "A B")] none []]]]

/-- An apparatus whose identifier matches the pattern but whose book code
`B99` is not a key of `books_by_n`. -/
def appEx3 : Elem :=
  .mk "app" [("n", "B99K01V01"), ("from", "2"), ("to", "2")] none
    [.mk "rdg" [("n", "1"), ("wit", "A")] (some "one") [],
     .mk "rdg" [("n", "2"), ("wit", "B")] (some "two") []]

/-- A document holding the unknown-book-code apparatus. -/
def docEx3 : Elem :=
  .mk "TEI" [] none [.mk "text" [] none [appEx3]]

/-- An apparatus with zero `<rdg>` children. -/
def appEx4 : Elem :=
  .mk "app" [("n", "B01K01V01"), ("from", "2"), ("to", "2")] none []

/-- A document holding the zero-reading apparatus. -/
def docEx4 : Elem :=
  .mk "TEI" [] none [.mk "text" [] none [appEx4]]

/-- An apparatus with no `n` attribute at all. -/
def appEx5 : Elem :=
  .mk "app" [("from", "2"), ("to", "2")] none
    [.mk "rdg" [("n", "1"), ("wit", "A")] (some "one") [],
     .mk "rdg" [("n", "2"), ("wit", "B")] (some "two") []]

/-- A document holding the apparatus without an `n` attribute. -/
def docEx5 : Elem :=
  .mk "TEI" [] none [.mk "text" [] none [appEx5]]

/-- An apparatus whose `n` attribute does not match the
`<book><chapter><verse>` pattern. -/
def appEx5b : Elem :=
  .mk "app" [("n", "X1"), ("from", "3"), ("to", "3")] none
    [.mk "rdg" [("n", "1"), ("wit", "A")] (some "one") [],
     .mk "rdg" [("n", "2"), ("wit", "B")] (some "two") []]

/-- The attribute list used to witness the renumbering theorem. -/
def attrsC6 : List (String × String) := [("n", "X1"), ("from", "4"), ("to", "5")]

/-- The apparatus used to witness the renumbering theorem. -/
def appC6 : Elem := .mk "app" attrsC6 none []

/-- An apparatus carrying `from` but not `to`. -/
def appC10 : Elem :=
  .mk "app" [("n", "B01K01V01"), ("from", "4")] none
    [.mk "rdg" [("n", "1"), ("wit", "A")] (some "one") []]

/-- A document whose single reading carries the spec's example witness
tokens `"A B1* C2V"`. -/
def docEx7 : Elem :=
  .mk "TEI" [] none
    [.mk "text" [] none
      [.mk "app" [("n", "B01K01V01"), ("from", "2"), ("to", "2")] none
        [.mk "rdg" [("n", "1"), ("wit", "A B1* C2V")] (some "one") []]]]

/-- A single-reading apparatus (collapsed by `sub_segs_for_apps`). -/
def appEx8 : Elem :=
  .mk "app" [("n", "B01K01V01"), ("from", "2"), ("to", "2")] none
    [.mk "rdg" [("n", "1"), ("wit", "A")] (some "alone") []]

/-! ### Attribute-list lemmas -/

theorem lookupA_popA_self (a : List (String × String)) (k : String) :
    lookupA (popA a k) k = none := by
  induction a with
  | nil => rfl
  | cons p ps ih =>
    by_cases h : p.1 = k <;> simp [popA, lookupA, h, ih]

theorem lookupA_popA_ne (a : List (String × String)) (k k' : String)
    (h : k' ≠ k) : lookupA (popA a k) k' = lookupA a k' := by
  induction a with
  | nil => rfl
  | cons p ps ih =>
    by_cases hp : p.1 = k
    · have hp' : ¬p.1 = k' := by rw [hp]; exact fun hk => h hk.symm
      rw [popA, if_pos hp, ih, lookupA, if_neg hp']
    · rw [popA, if_neg hp, lookupA, lookupA]
      by_cases hq : p.1 = k'
      · rw [if_pos hq, if_pos hq]
      · rw [if_neg hq, if_neg hq, ih]

theorem lookupA_setA_self (a : List (String × String)) (k v : String) :
    lookupA (setA a k v) k = some v := by
  induction a with
  | nil => simp [setA, lookupA]
  | cons p ps ih =>
    by_cases h : p.1 = k <;> simp [setA, lookupA, h, ih]

/-! ### C6: the renumbering pass -/

/-- Claim **C6.** For every apparatus carrying `n`, `from` and `to` attributes, the
renumbering step succeeds, removes `from` and `to`, and sets `n` to the old
`n` concatenated with `"U"` and the `from` value, with `"-"` and the `to`
value appended exactly when `to` differs from `from`; consequently the same
holds of the apparatus element after `update_app_n` traverses it. -/
theorem C6_renumber (a : List (String × String)) (n f t : String)
    (hn : lookupA a "n" = some n) (hf : lookupA a "from" = some f)
    (ht : lookupA a "to" = some t) :
    (updateAppNAttrs a).1 = none ∧
    lookupA (updateAppNAttrs a).2 "from" = none ∧
    lookupA (updateAppNAttrs a).2 "to" = none ∧
    lookupA (updateAppNAttrs a).2 "n" =
      some (if t ≠ f then n ++ "U" ++ f ++ "-" ++ t else n ++ "U" ++ f) ∧
    ∀ x cs r e', update_app_n (Elem.mk "app" a x cs) = (r, e') →
      getAttr e' "from" = none ∧ getAttr e' "to" = none ∧
      getAttr e' "n" =
        some (if t ≠ f then n ++ "U" ++ f ++ "-" ++ t else n ++ "U" ++ f) := by
  have hA : updateAppNAttrs a =
      (none,
       popA (popA (setA a "n"
         (if t ≠ f then n ++ "U" ++ f ++ "-" ++ t else n ++ "U" ++ f)) "from") "to") := by
    simp [updateAppNAttrs, hn, hf, ht]
  have hFrom :
      lookupA (popA (popA (setA a "n"
        (if t ≠ f then n ++ "U" ++ f ++ "-" ++ t else n ++ "U" ++ f)) "from") "to")
        "from" = none := by
    rw [lookupA_popA_ne _ _ _ (by decide), lookupA_popA_self]
  have hTo :
      lookupA (popA (popA (setA a "n"
        (if t ≠ f then n ++ "U" ++ f ++ "-" ++ t else n ++ "U" ++ f)) "from") "to")
        "to" = none := lookupA_popA_self _ _
  have hN :
      lookupA (popA (popA (setA a "n"
        (if t ≠ f then n ++ "U" ++ f ++ "-" ++ t else n ++ "U" ++ f)) "from") "to")
        "n" =
        some (if t ≠ f then n ++ "U" ++ f ++ "-" ++ t else n ++ "U" ++ f) := by
    rw [lookupA_popA_ne _ _ _ (by decide), lookupA_popA_ne _ _ _ (by decide),
      lookupA_setA_self]
  refine ⟨by rw [hA], by rw [hA]; exact hFrom, by rw [hA]; exact hTo,
    by rw [hA]; exact hN, ?_⟩
  intro x cs r e' h
  rw [update_app_n] at h
  simp only [if_pos rfl, hA] at h
  rcases hL : update_app_n_list cs with ⟨r2, cs2⟩
  rw [hL] at h
  have he : e' = Elem.mk "app"
      (popA (popA (setA a "n"
        (if t ≠ f then n ++ "U" ++ f ++ "-" ++ t else n ++ "U" ++ f)) "from") "to")
      x cs2 := by
    have := congrArg Prod.snd h
    simpa using this.symm
  subst he
  exact ⟨hFrom, hTo, hN⟩

/-- Witness for `C6_renumber`: the concrete apparatus
`<app n="X1" from="4" to="5">` is renumbered to `n="X1U4-5"` with `from` and
`to` removed. -/
theorem C6_renumber_witness :
    (lookupA attrsC6 "n" = some "X1" ∧ lookupA attrsC6 "from" = some "4" ∧
     lookupA attrsC6 "to" = some "5") ∧
    (getAttr (update_app_n appC6).2 "from" = none ∧
     getAttr (update_app_n appC6).2 "to" = none ∧
     getAttr (update_app_n appC6).2 "n" = some "X1U4-5") := by
  have h := C6_renumber attrsC6 "X1" "4" "5" rfl rfl rfl
  have h2 := h.2.2.2.2 none [] (update_app_n appC6).1 (update_app_n appC6).2 rfl
  have hs : (if ("5" : String) ≠ "4" then "X1" ++ "U" ++ "4" ++ "-" ++ "5"
      else "X1" ++ "U" ++ "4") = "X1U4-5" := by decide
  rw [hs] at h2
  exact ⟨⟨rfl, rfl, rfl⟩, h2⟩

/-! ### C10: an apparatus with exactly one of `from`/`to` -/

/-- Claim **C10.** An apparatus carrying exactly one of the `from` and `to`
attributes is not unit-less, so the pruning pass keeps it in place, and the
renumbering pass raises on it (string concatenation with the missing
attribute), leaving it unchanged; hence the pipeline completes only when every
retained apparatus carries both attributes. -/
theorem C10_half_unit_app (e : Elem) (htag : e.tag = "app")
    (h : (getAttr e "from").isSome ∧ (getAttr e "to").isNone ∨
         (getAttr e "from").isNone ∧ (getAttr e "to").isSome) :
    isUnitlessApp e = false ∧
    (∀ rest, strip_unitless_apps_list (e :: rest) =
      strip_unitless_apps e :: strip_unitless_apps_list rest) ∧
    (update_app_n e).1.isSome = true ∧ (update_app_n e).2 = e := by
  have hUnit : isUnitlessApp e = false := by
    rcases h with ⟨h1, _⟩ | ⟨_, h2⟩
    · simp [isUnitlessApp, Option.isNone_iff_eq_none]
      intro _ hf
      rw [hf] at h1
      simp at h1
    · simp [isUnitlessApp, Option.isNone_iff_eq_none]
      intro _ _
      simpa [Option.isNone_iff_eq_none] using h2
  refine ⟨hUnit, ?_, ?_⟩
  · intro rest
    rw [strip_unitless_apps_list]
    simp [hUnit]
  · rcases e with ⟨t, a, x, cs⟩
    have ht : t = "app" := htag
    subst ht
    have hAttr : (updateAppNAttrs a).1 = some "TypeError" ∧
        (updateAppNAttrs a).2 = a := by
      rcases h with ⟨h1, h2⟩ | ⟨h1, h2⟩
      · rcases hf : lookupA a "from" with _ | f
        · rw [getAttr] at h1
          simp [Elem.attrs] at h1
          rw [hf] at h1
          simp at h1
        · have ht2 : lookupA a "to" = none := by
            have := h2
            rw [getAttr] at this
            simp [Elem.attrs, Option.isNone_iff_eq_none] at this
            exact this
          rcases hn : lookupA a "n" with _ | n <;>
            simp [updateAppNAttrs, hn, hf, ht2]
      · have hf : lookupA a "from" = none := by
          have := h1
          rw [getAttr] at this
          simp [Elem.attrs, Option.isNone_iff_eq_none] at this
          exact this
        rcases hn : lookupA a "n" with _ | n <;>
          simp [updateAppNAttrs, hn, hf]
    rw [update_app_n]
    simp only [if_pos rfl]
    rcases hU : updateAppNAttrs a with ⟨r0, a0⟩
    rw [hU] at hAttr
    rcases hAttr with ⟨hA1, _⟩
    simp only at hA1
    subst hA1
    simp

/-- Witness for `C10_half_unit_app`: the apparatus `<app n="B01K01V01"
from="4">` (no `to`) is kept by the pruning pass and makes the renumbering
pass raise. -/
theorem C10_half_unit_app_witness :
    (appC10.tag = "app" ∧ (getAttr appC10 "from").isSome ∧
     (getAttr appC10 "to").isNone) ∧
    isUnitlessApp appC10 = false ∧
    strip_unitless_apps_list [appC10] =
      strip_unitless_apps appC10 :: strip_unitless_apps_list [] ∧
    (update_app_n appC10).1.isSome = true ∧ (update_app_n appC10).2 = appC10 := by
  have h := C10_half_unit_app appC10 rfl (Or.inl ⟨rfl, rfl⟩)
  exact ⟨⟨rfl, rfl, rfl⟩, h.1, h.2.1 [], h.2.2⟩

/-! ### Tag-preservation lemmas for the collapse and annotation passes -/

/-- The function `sub_segs_for_apps` never changes the tag of the element it processes. -/
theorem sub_segs_tag (c : Elem) : (sub_segs_for_apps c).tag = c.tag := by
  rcases c with ⟨t, a, x, cs⟩
  rw [sub_segs_for_apps]
  rfl

/-- The note attached by an `add_app_notes` iteration is tagged `note`,
whether or not the iteration raised. -/
theorem appNoteResult_tag (e : Elem) : ((appNoteResult e).2).tag = "note" := by
  rcases hn : getAttr e "n" with _ | n
  · simp [appNoteResult, hn, emptyNote, Elem.tag]
  · rcases hm : matchBCV n with _ | ⟨b, k, v⟩
    · simp [appNoteResult, hn, hm, fullNote, Elem.tag]
    · rcases hb : lookupA books_by_n b with _ | abbr <;>
        simp [appNoteResult, hn, hm, hb, emptyNote, fullNote, Elem.tag]

/-- The function `add_app_notes` never changes the tag of the element it processes. -/
theorem add_app_notes_tag (c : Elem) : ((add_app_notes c).2).tag = c.tag := by
  rcases c with ⟨t, a, x, cs⟩
  rw [add_app_notes]
  by_cases h : t = "app"
  · rw [if_pos h]
    rcases hA : appNoteResult ⟨t, a, x, cs⟩ with ⟨r0, note⟩
    rcases r0 with _ | err
    · rcases hL : add_app_notes_list cs with ⟨r1, cs'⟩
      simp [Elem.tag]
    · simp [Elem.tag]
  · rw [if_neg h]
    rcases hL : add_app_notes_list cs with ⟨r1, cs'⟩
    simp [Elem.tag]

/-- The function `add_app_notes` over a child list preserves the list of tags. -/
theorem add_app_notes_list_tags (cs : List Elem) (r : Option String)
    (cs' : List Elem) (h : add_app_notes_list cs = (r, cs')) :
    cs'.map Elem.tag = cs.map Elem.tag := by
  induction cs generalizing r cs' with
  | nil =>
    rw [add_app_notes_list] at h
    rcases h with ⟨⟩
    rfl
  | cons c cs ih =>
    rw [add_app_notes_list] at h
    rcases hc : add_app_notes c with ⟨rc, c'⟩
    rw [hc] at h
    have htag : c'.tag = c.tag := by
      have := add_app_notes_tag c
      rw [hc] at this
      exact this
    rcases rc with _ | err
    · rcases hL : add_app_notes_list cs with ⟨r1, cs1⟩
      rw [hL] at h
      rcases h with ⟨⟩
      simp only [List.map_cons, htag]
      rw [ih _ _ hL]
    · rcases h with ⟨⟩
      simp [htag]

/-- The collapse pass introduces no `note`-tagged element into a child list
that had none (new elements are `<seg>`s; others keep their tags). -/
theorem sub_segs_no_note (cs : List Elem) (h : ∀ c ∈ cs, c.tag ≠ "note") :
    ∀ d ∈ sub_segs_for_apps_list cs, d.tag ≠ "note" := by
  induction cs with
  | nil => intro d hd; rw [sub_segs_for_apps_list] at hd; cases hd
  | cons c cs ih =>
    intro d hd
    have hc : c.tag ≠ "note" := h c (List.mem_cons_self c cs)
    have hcs : ∀ c' ∈ cs, c'.tag ≠ "note" := fun c' hc' => h c' (List.mem_cons_of_mem c hc')
    rw [sub_segs_for_apps_list] at hd
    by_cases happ : c.tag = "app"
    · rw [if_pos happ] at hd
      rcases hr : rdgChildren c.children with _ | ⟨r, rs⟩
      · rw [hr, List.mem_cons] at hd
        rcases hd with rfl | hd
        · rw [sub_segs_tag]; exact hc
        · exact ih hcs d hd
      · rcases rs with _ | ⟨r2, rs2⟩
        · rw [hr, List.mem_cons] at hd
          rcases hd with rfl | hd
          · intro hcontra
            simp [Elem.tag] at hcontra
          · exact ih hcs d hd
        · rw [hr, List.mem_cons] at hd
          rcases hd with rfl | hd
          · rw [sub_segs_tag]; exact hc
          · exact ih hcs d hd
    · rw [if_neg happ] at hd
      rw [List.mem_cons] at hd
      rcases hd with rfl | hd
      · rw [sub_segs_tag]; exact hc
      · exact ih hcs d hd

/-! ### C1: the spec's worked example -/

/-- Claim **C1**, counterexample: on the example apparatus
(`n="B01K02V03"`, `from="4"`, `to="4"`, readings `1` and `2`) the pipeline
does *not* produce the label `"Matt 2:3/4"`: slicing `K02`/`V03` with `[1:]`
keeps the leading zeros, so the label reads `"Matt 02:03/4"`. -/
theorem C1_example_counterexample :
    (pipeline docEx1).map labelTexts ≠ some [some "Matt 2:3/4"] := by decide

/-- Claim **C1**, amended: on the example apparatus the pipeline produces the
annotation label `"Matt 02:03/4"`, rewrites the apparatus `n` to
`"B01K02V03U4"`, and emits a graph whose children are exactly the two nodes
`1` and `2` (no edge elements). -/
theorem C1_example_pipeline :
    (pipeline docEx1).map
      (fun o => (labelTexts o, appNs o, graphNodeIds o, graphChildTags o)) =
    some ([some "Matt 02:03/4"], [some "B01K02V03U4"], [["1", "2"]],
      [["node", "node"]]) := rfl

/-! ### C3: unknown book code -/

/-- Claim **C3**, counterexample: on an apparatus whose identifier matches the
pattern but whose book code `B99` is not in the table, the annotation pass
raises a lookup error *and* leaves the partially built (empty) note attached
to the apparatus — neither of the claim's two admissible behaviours. -/
theorem C3_unknown_book_counterexample :
    (add_app_notes docEx3).1 = some "KeyError" ∧ noteCounts docEx3 = [0] ∧
    noteCounts (add_app_notes docEx3).2 = [1] := ⟨rfl, rfl, rfl⟩

/-- Claim **C3**, amended: an apparatus whose base identifier matches the pattern
with a book code outside the 27-entry table makes the annotation pass raise a
lookup error, with the partially built empty note child already appended to
the apparatus (the bare note is attached before the label is built). -/
theorem C3_unknown_book (e : Elem) (s b k v : String)
    (hn : getAttr e "n" = some s) (hm : matchBCV s = some (b, k, v))
    (hb : lookupA books_by_n b = none) :
    appNoteStep e = (some "KeyError", appendChild e emptyNote) := by
  simp [appNoteStep, appNoteResult, hn, hm, hb, Prod.map]

/-- Witness for `C3_unknown_book` at the concrete apparatus with `n="B99K01V01"`. -/
theorem C3_unknown_book_witness :
    (getAttr appEx3 "n" = some "B99K01V01" ∧
     matchBCV "B99K01V01" = some ("B99", "K01", "V01") ∧
     lookupA books_by_n "B99" = none) ∧
    appNoteStep appEx3 = (some "KeyError", appendChild appEx3 emptyNote) :=
  ⟨⟨rfl, rfl, rfl⟩, C3_unknown_book appEx3 "B99K01V01" "B99" "K01" "V01" rfl rfl rfl⟩

/-! ### C5: identifier that does not match the pattern -/

/-- Claim **C5**, counterexample: on an apparatus with *no* `n` attribute at all the
annotation pass does fail — `re.match` is called on `None` and raises a
`TypeError` — contrary to the claim that such apparatuses yield a label-less
annotation. -/
theorem C5_missing_n_counterexample :
    (add_app_notes docEx5).1 = some "TypeError" := rfl

/-- Claim **C5**, amended: for an apparatus whose `n` attribute is *present* but
does not match the `<book><chapter><verse>` pattern, the annotation step does
not fail: it appends a note that omits the label but still carries the
connectivity feature set and the stemma graph.  (An apparatus with no `n`
attribute at all instead makes the pass raise a `TypeError`.) -/
theorem C5_unmatched_identifier (e : Elem) (s : String)
    (hn : getAttr e "n" = some s) (hm : matchBCV s = none) :
    appNoteStep e =
      (none, appendChild e
        (Elem.mk "note" [] none [connectivityFs, stemmaGraph (rdgIdsOf e)])) := by
  simp [appNoteStep, appNoteResult, hn, hm, fullNote, Prod.map]

/-- Witness for `C5_unmatched_identifier` at the concrete apparatus with
`n="X1"`. -/
theorem C5_unmatched_identifier_witness :
    (getAttr appEx5b "n" = some "X1" ∧ matchBCV "X1" = none) ∧
    appNoteStep appEx5b =
      (none, appendChild appEx5b
        (Elem.mk "note" [] none [connectivityFs, stemmaGraph (rdgIdsOf appEx5b)])) :=
  ⟨⟨rfl, rfl⟩, C5_unmatched_identifier appEx5b "X1" rfl rfl⟩

/-! ### C4: which apparatuses receive annotation scaffolding -/

/-- Claim **C4**, counterexample: an apparatus with zero readings is *not* left
untouched by the annotation pass — after the collapse and annotation passes it
carries one appended note. -/
theorem C4_zero_reading_counterexample :
    (add_app_notes (sub_segs_for_apps docEx4)).1 = none ∧
    noteCounts docEx4 = [0] ∧
    noteCounts (add_app_notes (sub_segs_for_apps docEx4)).2 = [1] :=
  ⟨rfl, rfl, rfl⟩

/-- Claim **C4**, amended: the annotation pass adds scaffolding to *every* surviving
apparatus, regardless of reading count: an apparatus whose reading count is
not one (zero included) survives the collapse pass in place, and when the
annotation pass completes on it it carries exactly one note child. -/
theorem C4_surviving_apps (a : List (String × String)) (x : Option String)
    (cs rest : List Elem) (e' : Elem)
    (hlen : (rdgChildren cs).length ≠ 1)
    (hnote : ∀ c ∈ cs, c.tag ≠ "note") :
    sub_segs_for_apps_list (Elem.mk "app" a x cs :: rest) =
      sub_segs_for_apps (Elem.mk "app" a x cs) :: sub_segs_for_apps_list rest ∧
    (add_app_notes (sub_segs_for_apps (Elem.mk "app" a x cs)) = (none, e') →
      e'.tag = "app" ∧ (noteChildren e').length = 1) := by
  constructor
  · rw [sub_segs_for_apps_list]
    rw [if_pos (show (Elem.mk "app" a x cs).tag = "app" from rfl)]
    rcases hr : rdgChildren (Elem.mk "app" a x cs).children with _ | ⟨r, rs⟩
    · rfl
    · rcases rs with _ | ⟨r2, rs2⟩
      · exfalso
        apply hlen
        have : rdgChildren cs = [r] := hr
        rw [this]
        rfl
      · rfl
  · intro h
    rw [sub_segs_for_apps] at h
    rw [add_app_notes] at h
    rw [if_pos rfl] at h
    rcases hA : appNoteResult ⟨"app", a, x, sub_segs_for_apps_list cs⟩ with ⟨r0, note⟩
    rw [hA] at h
    rcases r0 with _ | err
    · rcases hL : add_app_notes_list (sub_segs_for_apps_list cs) with ⟨r1, cs''⟩
      rw [hL] at h
      rcases h with ⟨⟩
      refine ⟨rfl, ?_⟩
      have hNoteTag : note.tag = "note" := by
        have := appNoteResult_tag ⟨"app", a, x, sub_segs_for_apps_list cs⟩
        rw [hA] at this
        exact this
      have hcs'' : ∀ d ∈ cs'', d.tag ≠ "note" := by
        intro d hd
        have hmap := add_app_notes_list_tags _ _ _ hL
        have : d.tag ∈ cs''.map Elem.tag := List.mem_map_of_mem Elem.tag hd
        rw [hmap] at this
        rcases List.mem_map.mp this with ⟨c0, hc0, htag⟩
        rw [← htag]
        exact sub_segs_no_note cs hnote c0 hc0
      have hfilter : cs''.filter (fun c => c.tag == "note") = [] := by
        rw [List.filter_eq_nil_iff]
        intro d hd
        simp only [beq_iff_eq]
        exact hcs'' d hd
      show ((cs'' ++ [note]).filter (fun c => c.tag == "note")).length = 1
      rw [List.filter_append, hfilter]
      simp [hNoteTag]
    · exfalso
      have := congrArg Prod.fst h
      simp at this

/-- Witness for `C4_surviving_apps` at the concrete zero-reading apparatus. -/
theorem C4_surviving_apps_witness :
    ((rdgChildren ([] : List Elem)).length ≠ 1 ∧
     sub_segs_for_apps_list [appEx4] =
       sub_segs_for_apps appEx4 :: sub_segs_for_apps_list []) ∧
    ((add_app_notes (sub_segs_for_apps appEx4)).2.tag = "app" ∧
     (noteChildren (add_app_notes (sub_segs_for_apps appEx4)).2).length = 1) := by
  have h := C4_surviving_apps [("n", "B01K01V01"), ("from", "2"), ("to", "2")]
    none [] [] ((add_app_notes (sub_segs_for_apps appEx4)).2) (by decide) (by simp)
  exact ⟨⟨by decide, h.1⟩, h.2 rfl⟩

/-! ### C2: a reading without a `wit` attribute -/

/-- If some reading of the list lacks a `wit` attribute, the witness fold of
`get_wits` raises (`None.split()` is an `AttributeError`). -/
theorem foldl_wits_none (l : List Elem) (acc : List String) (r : Elem)
    (hr : r ∈ l) (hw : getAttr r "wit" = none) :
    l.foldlM (fun acc rdg => (getAttr rdg "wit").map
      (fun w => (splitTokens w).foldl addWit acc)) acc = none := by
  induction l generalizing acc with
  | nil => cases hr
  | cons c l ih =>
    rw [List.foldlM_cons]
    rw [List.mem_cons] at hr
    rcases hr with rfl | hr
    · rw [hw]; rfl
    · rcases hc : getAttr c "wit" with _ | w
      · rfl
      · show List.foldlM _ ((splitTokens w).foldl addWit acc) l = none
        exact ih _ hr

/-- Claim **C2**, counterexample: `get_wits` on a document containing a reading
without a `wit` attribute raises an `AttributeError` (modelled as `none`)
instead of returning the witnesses of the remaining readings. -/
theorem C2_missing_wit_counterexample :
    get_wits docEx2 = none ∧ get_wits docEx2 ≠ some ["A", "B"] :=
  ⟨rfl, by decide⟩

/-- Claim **C2**, amended: a reading without a `wit` attribute is *fatal* to witness
derivation — `get_wits` on any tree containing such a reading raises rather
than treating it as contributing no witnesses. -/
theorem C2_missing_wit (e : Elem)
    (h : (rdgElems e).any (fun r => (getAttr r "wit").isNone) = true) :
    get_wits e = none := by
  rcases List.any_eq_true.mp h with ⟨r, hr, hw⟩
  exact foldl_wits_none (rdgElems e) [] r hr (Option.isNone_iff_eq_none.mp hw)

/-- Witness for `C2_missing_wit` at the concrete document with a `wit`-less
reading. -/
theorem C2_missing_wit_witness :
    (rdgElems docEx2).any (fun r => (getAttr r "wit").isNone) = true ∧
    get_wits docEx2 = none :=
  ⟨rfl, C2_missing_wit docEx2 rfl⟩

/-! ### C7: the derived witness list and the injected header -/

/-- Membership in one `addWit` step. -/
theorem mem_addWit (acc : List String) (a w : String) :
    w ∈ addWit acc a ↔ w ∈ acc ∨ stripMarker a = w := by
  unfold addWit
  by_cases h : stripMarker a ∈ acc
  · rw [if_pos h]
    constructor
    · exact Or.inl
    · rintro (hw | rfl)
      · exact hw
      · exact h
  · rw [if_neg h]
    simp [List.mem_append, eq_comm]

/-- Membership after folding `addWit` over a token list. -/
theorem foldl_addWit_mem (l : List String) (acc : List String) (w : String) :
    w ∈ l.foldl addWit acc ↔ w ∈ acc ∨ ∃ t ∈ l, stripMarker t = w := by
  induction l generalizing acc with
  | nil => simp
  | cons a l ih =>
    rw [List.foldl_cons, ih, mem_addWit, List.exists_mem_cons_iff]
    tauto

/-- Folding `addWit` preserves freedom from duplicates. -/
theorem foldl_addWit_nodup (l : List String) (acc : List String)
    (h : acc.Nodup) : (l.foldl addWit acc).Nodup := by
  induction l generalizing acc with
  | nil => exact h
  | cons a l ih =>
    rw [List.foldl_cons]
    apply ih
    unfold addWit
    by_cases hm : stripMarker a ∈ acc
    · rw [if_pos hm]; exact h
    · rw [if_neg hm, List.nodup_append]
      refine ⟨h, List.nodup_singleton _, ?_⟩
      intro b hb hbs
      rw [List.mem_singleton] at hbs
      subst hbs
      exact hm hb

/-- A successful `get_wits` fold equals the plain `addWit` fold over the
flattened token sequence of the readings, in document order. -/
theorem foldlM_wits_eq (l : List Elem) (acc ws : List String)
    (h : l.foldlM (fun acc rdg => (getAttr rdg "wit").map
      (fun w => (splitTokens w).foldl addWit acc)) acc = some ws) :
    ws = ((l.filterMap (fun r => getAttr r "wit")).foldr
      (fun w acc2 => splitTokens w ++ acc2) []).foldl addWit acc := by
  induction l generalizing acc with
  | nil =>
    rw [List.foldlM_nil] at h
    rcases h with ⟨⟩
    rfl
  | cons c l ih =>
    rw [List.foldlM_cons] at h
    rcases hc : getAttr c "wit" with _ | w
    · rw [hc] at h
      cases h
    · rw [hc] at h
      have h' : List.foldlM (fun acc rdg => (getAttr rdg "wit").map
          (fun w => (splitTokens w).foldl addWit acc))
          ((splitTokens w).foldl addWit acc) l = some ws := h
      rw [List.filterMap_cons, hc]
      simp only [List.foldr_cons]
      rw [List.foldl_append]
      exact ih _ h'

/-- The elements below a mapped `<witness>` list are exactly the `<witness>`
elements themselves (they have no children). -/
theorem allElemsList_witness_map (ws : List String) :
    allElemsList (ws.map (fun w => Elem.mk "witness" [("n", w)] none [])) =
      ws.map (fun w => Elem.mk "witness" [("n", w)] none []) := by
  induction ws with
  | nil => rfl
  | cons w ws ih =>
    rw [List.map_cons, allElemsList, ih]
    rfl

/-- Reading the `n` attributes back off a mapped `<witness>` list returns the
original witness identifiers. -/
theorem filterMap_witness_map (ws : List String) :
    (ws.map (fun w => Elem.mk "witness" [("n", w)] none [])).filterMap
      (fun w => getAttr w "n") = ws := by
  induction ws with
  | nil => rfl
  | cons w ws ih =>
    rw [List.map_cons, List.filterMap_cons]
    have hw : getAttr (Elem.mk "witness" [("n", w)] none []) "n" = some w := rfl
    rw [hw]
    exact congrArg (fun l => w :: l) ih

/-- A mapped `<witness>` list contains no `listWit`-tagged element. -/
theorem filter_witness_map_listWit (ws : List String) :
    (ws.map (fun w => Elem.mk "witness" [("n", w)] none [])).filter
      (fun c => c.tag == "listWit") = [] := by
  induction ws with
  | nil => rfl
  | cons w ws ih =>
    rw [List.map_cons, List.filter_cons]
    simp only [Elem.tag]
    rw [if_neg (by decide)]
    exact ih

/-- The header built from `ws` declares exactly the witnesses `ws`. -/
theorem listWitEntries_header (ws : List String) :
    listWitEntries (teiHeaderElem ws) = [ws] := by
  have hexp : allElems (teiHeaderElem ws) =
      teiHeaderElem ws ::
        Elem.mk "sourceDesc" [] none
          [Elem.mk "listWit" [] none
            (ws.map (fun w => Elem.mk "witness" [("n", w)] none []))] ::
        Elem.mk "listWit" [] none
          (ws.map (fun w => Elem.mk "witness" [("n", w)] none [])) ::
        ws.map (fun w => Elem.mk "witness" [("n", w)] none []) := by
    simp only [teiHeaderElem, allElems, allElemsList, allElemsList_witness_map,
      List.append_nil, List.cons_append, List.nil_append]
  rw [listWitEntries, hexp]
  rw [List.filter_cons, List.filter_cons, List.filter_cons]
  rw [if_neg (by simp [teiHeaderElem, Elem.tag]), if_neg (by simp [Elem.tag]),
    if_pos (by simp [Elem.tag])]
  rw [filter_witness_map_listWit, List.map_cons]
  show [(ws.map (fun w => Elem.mk "witness" [("n", w)] none [])).filterMap
    (fun w => getAttr w "n")] = [ws]
  rw [filterMap_witness_map]

/-- Claim **C7.** When witness derivation succeeds, the derived list is the
`addWit` fold of all whitespace-split `wit` tokens in document order; it is
duplicate-free; it contains exactly the marker-stripped forms of those
tokens; the header built from it declares exactly those witnesses; and the
header-injection pass inserts exactly that header. -/
theorem C7_witness_list (e : Elem) (ws : List String)
    (h : get_wits e = some ws) :
    ws = (allWitTokens e).foldl addWit [] ∧
    ws.Nodup ∧
    (∀ w, w ∈ ws ↔ ∃ t ∈ allWitTokens e, stripMarker t = w) ∧
    listWitEntries (teiHeaderElem ws) = [ws] ∧
    (∀ e', add_tei_header e = some e' →
      e' = (insertHeader (teiHeaderElem ws) e).2) := by
  have h1 : ws = (allWitTokens e).foldl addWit [] :=
    foldlM_wits_eq (rdgElems e) [] ws h
  refine ⟨h1, ?_, ?_, listWitEntries_header ws, ?_⟩
  · rw [h1]
    exact foldl_addWit_nodup _ _ List.nodup_nil
  · intro w
    rw [h1, foldl_addWit_mem]
    simp
  · intro e' h'
    have h'' : (match insertHeader (teiHeaderElem ws) e with
        | (true, x) => some x
        | (false, _) => none) = some e' := by
      rw [add_tei_header, h] at h'
      exact h'
    rcases hi : insertHeader (teiHeaderElem ws) e with ⟨b, e2⟩
    rw [hi] at h''
    cases b
    · cases h''
    · rcases h'' with ⟨⟩
      rfl

/-- Witness for `C7_witness_list`: the tokens `"A B1* C2V"` yield the
canonical witnesses `["A", "B1", "C2"]`, in that order, duplicate-free, and
the header declares exactly them. -/
theorem C7_witness_list_witness :
    get_wits docEx7 = some ["A", "B1", "C2"] ∧
    (["A", "B1", "C2"] : List String).Nodup ∧
    listWitEntries (teiHeaderElem ["A", "B1", "C2"]) = [["A", "B1", "C2"]] := by
  have h := C7_witness_list docEx7 ["A", "B1", "C2"] rfl
  exact ⟨rfl, h.2.1, h.2.2.2.1⟩

/-! ### C8: the single-reading collapse -/

mutual
/-- No element of this subtree is an `<app>` with exactly one `<rdg>` child
(i.e. nothing here is collapsible). -/
def noSingleRdgApp : Elem → Bool
  | .mk t a x cs =>
    !(t == "app" && (rdgChildren cs).length == 1) && noSingleRdgAppList cs

/-- The function `noSingleRdgApp` over a child list. -/
def noSingleRdgAppList : List Elem → Bool
  | [] => true
  | c :: cs => noSingleRdgApp c && noSingleRdgAppList cs
end

/-- The collapse pass is the identity on a child list containing no
collapsible apparatus anywhere below. -/
theorem sub_segs_list_id (cs : List Elem)
    (ihm : ∀ c ∈ cs, noSingleRdgApp c = true → sub_segs_for_apps c = c)
    (h : noSingleRdgAppList cs = true) : sub_segs_for_apps_list cs = cs := by
  induction cs with
  | nil => rfl
  | cons c cs ih =>
    rw [noSingleRdgAppList, Bool.and_eq_true] at h
    rcases h with ⟨hc, hcs⟩
    have hid : sub_segs_for_apps c = c :=
      ihm c (List.mem_cons_self c cs) hc
    have hrest : sub_segs_for_apps_list cs = cs :=
      ih (fun d hd => ihm d (List.mem_cons_of_mem c hd)) hcs
    rw [sub_segs_for_apps_list]
    by_cases happ : c.tag = "app"
    · rw [if_pos happ]
      rcases c with ⟨t, a, x, cs0⟩
      have ht : t = "app" := happ
      subst ht
      rcases hr : rdgChildren (Elem.mk "app" a x cs0).children with _ | ⟨r, rs⟩
      · show sub_segs_for_apps (Elem.mk "app" a x cs0) :: sub_segs_for_apps_list cs =
          Elem.mk "app" a x cs0 :: cs
        rw [hid, hrest]
      · rcases rs with _ | ⟨r2, rs2⟩
        · exfalso
          rw [noSingleRdgApp, Bool.and_eq_true] at hc
          rcases hc with ⟨hc1, _⟩
          have : rdgChildren cs0 = [r] := hr
          rw [this] at hc1
          simp at hc1
        · show sub_segs_for_apps (Elem.mk "app" a x cs0) :: sub_segs_for_apps_list cs =
            Elem.mk "app" a x cs0 :: cs
          rw [hid, hrest]
    · rw [if_neg happ, hid, hrest]

/-- The collapse pass is the identity on a subtree containing no collapsible
apparatus. -/
theorem sub_segs_id (e : Elem) (h : noSingleRdgApp e = true) :
    sub_segs_for_apps e = e := by
  induction e using elemInd with
  | h t a x cs ih =>
    rw [noSingleRdgApp, Bool.and_eq_true] at h
    rcases h with ⟨_, h2⟩
    rw [sub_segs_for_apps, sub_segs_list_id cs ih h2]

/-- Claim **C8.** The collapse pass replaces every apparatus with exactly one
reading child, in place, by a `<seg>` carrying the text of that reading; an
apparatus whose reading count is not one, and below which no single-reading
apparatus occurs, is left in place unchanged. -/
theorem C8_single_reading_collapse :
    (∀ a x cs rest r, rdgChildren cs = [r] →
       sub_segs_for_apps_list (Elem.mk "app" a x cs :: rest) =
         Elem.mk "seg" [] r.text [] :: sub_segs_for_apps_list rest) ∧
    (∀ e rest, e.tag = "app" → noSingleRdgApp e = true →
       sub_segs_for_apps_list (e :: rest) = e :: sub_segs_for_apps_list rest) := by
  constructor
  · intro a x cs rest r hr
    rw [sub_segs_for_apps_list,
      if_pos (show (Elem.mk "app" a x cs).tag = "app" from rfl)]
    have hr2 : rdgChildren (Elem.mk "app" a x cs).children = [r] := hr
    rw [hr2]
  · intro e rest htag hno
    rw [sub_segs_for_apps_list, if_pos htag]
    have hid : sub_segs_for_apps e = e := sub_segs_id e hno
    rcases e with ⟨t, a, x, cs0⟩
    have ht : t = "app" := htag
    subst ht
    rcases hr : rdgChildren (Elem.mk "app" a x cs0).children with _ | ⟨r, rs⟩
    · show sub_segs_for_apps (Elem.mk "app" a x cs0) :: sub_segs_for_apps_list rest =
        Elem.mk "app" a x cs0 :: sub_segs_for_apps_list rest
      rw [hid]
    · rcases rs with _ | ⟨r2, rs2⟩
      · exfalso
        rw [noSingleRdgApp, Bool.and_eq_true] at hno
        rcases hno with ⟨hc1, _⟩
        have : rdgChildren cs0 = [r] := hr
        rw [this] at hc1
        simp at hc1
      · show sub_segs_for_apps (Elem.mk "app" a x cs0) :: sub_segs_for_apps_list rest =
          Elem.mk "app" a x cs0 :: sub_segs_for_apps_list rest
        rw [hid]

/-- Witness for `C8_single_reading_collapse`: the single-reading apparatus is
replaced by a `<seg>` with the text of its reading, and the two-reading example
apparatus is left unchanged. -/
theorem C8_single_reading_collapse_witness :
    (rdgChildren appEx8.children =
       [Elem.mk "rdg" [("n", "1"), ("wit", "A")] (some "alone") []] ∧
     sub_segs_for_apps_list [appEx8] = [Elem.mk "seg" [] (some "alone") []]) ∧
    (appEx1.tag = "app" ∧ noSingleRdgApp appEx1 = true ∧
     sub_segs_for_apps_list [appEx1] = [appEx1]) := by
  have h1 := C8_single_reading_collapse.1
    [("n", "B01K01V01"), ("from", "2"), ("to", "2")] none
    [Elem.mk "rdg" [("n", "1"), ("wit", "A")] (some "alone") []] []
    (Elem.mk "rdg" [("n", "1"), ("wit", "A")] (some "alone") []) rfl
  have h2 := C8_single_reading_collapse.2 appEx1 [] rfl rfl
  exact ⟨⟨rfl, h1⟩, ⟨rfl, rfl, h2⟩⟩

/-! ### C9: `from`/`to` attributes after pruning and after the pipeline -/

/-- Every element is the first entry of its own document-order listing. -/
theorem self_mem_allElems (e : Elem) : e ∈ allElems e := by
  rcases e with ⟨t, a, x, cs⟩
  rw [allElems]
  exact List.mem_cons_self _ _

/-- An `<app>` element of the output of a *successful* renumbering pass
carries neither `from` nor `to`. -/
def appFromToFree (y : Elem) : Prop :=
  y.tag = "app" → getAttr y "from" = none ∧ getAttr y "to" = none

/-- A successful renumbering step leaves an attribute list without `from` and
`to` bindings. -/
theorem updateAppNAttrs_success (a a2 : List (String × String))
    (h : updateAppNAttrs a = (none, a2)) :
    lookupA a2 "from" = none ∧ lookupA a2 "to" = none := by
  rcases hn : lookupA a "n" with _ | n
  · simp [updateAppNAttrs, hn] at h
  · rcases hf : lookupA a "from" with _ | f
    · simp [updateAppNAttrs, hn, hf] at h
    · rcases ht2 : lookupA a "to" with _ | t2
      · simp [updateAppNAttrs, hn, hf, ht2] at h
      · have hA : updateAppNAttrs a =
            (none, popA (popA (setA a "n"
              (if t2 ≠ f then n ++ "U" ++ f ++ "-" ++ t2 else n ++ "U" ++ f))
              "from") "to") := by
          simp [updateAppNAttrs, hn, hf, ht2]
        rw [hA] at h
        have ha2 : a2 = popA (popA (setA a "n"
            (if t2 ≠ f then n ++ "U" ++ f ++ "-" ++ t2 else n ++ "U" ++ f))
            "from") "to" := by
          have := congrArg Prod.snd h
          simpa using this.symm
        subst ha2
        exact ⟨by rw [lookupA_popA_ne _ _ _ (by decide), lookupA_popA_self],
          lookupA_popA_self _ _⟩

/-- The function `update_app_n` over a child list: on success, every element below the
result is `from`/`to`-free wherever it is an `<app>`. -/
theorem update_app_n_list_good (cs : List Elem)
    (ihm : ∀ c ∈ cs, ∀ out, update_app_n c = (none, out) →
      ∀ y ∈ allElems out, appFromToFree y)
    (cs2 : List Elem) (h : update_app_n_list cs = (none, cs2)) :
    ∀ y ∈ allElemsList cs2, appFromToFree y := by
  induction cs generalizing cs2 with
  | nil =>
    rw [update_app_n_list] at h
    rcases h with ⟨⟩
    intro y hy
    cases hy
  | cons c cs ih =>
    rw [update_app_n_list] at h
    rcases hc : update_app_n c with ⟨rc, c2⟩
    rw [hc] at h
    rcases rc with _ | err
    · rcases hL : update_app_n_list cs with ⟨r1, cs1⟩
      rw [hL] at h
      have hr1 : r1 = none := by
        have := congrArg Prod.fst h
        simpa using this
      have hcs2 : cs2 = c2 :: cs1 := by
        have := congrArg Prod.snd h
        simpa using this.symm
      subst hr1
      subst hcs2
      intro y hy
      rw [allElemsList] at hy
      rcases List.mem_append.mp hy with hy | hy
      · exact ihm c (List.mem_cons_self c cs) c2 hc y hy
      · exact ih (fun d hd => ihm d (List.mem_cons_of_mem c hd)) cs1 hL y hy
    · exfalso
      have := congrArg Prod.fst h
      simp at this

/-- On success of the renumbering pass, every `<app>` element of the result
lacks both `from` and `to`. -/
theorem update_app_n_good (e : Elem) : ∀ out, update_app_n e = (none, out) →
    ∀ y ∈ allElems out, appFromToFree y := by
  induction e using elemInd with
  | h t a x cs ih =>
    intro out h y hy
    rw [update_app_n] at h
    by_cases ht : t = "app"
    · rw [if_pos ht] at h
      rcases hU : updateAppNAttrs a with ⟨r0, a2⟩
      rw [hU] at h
      rcases r0 with _ | err
      · rcases hL : update_app_n_list cs with ⟨r1, cs1⟩
        rw [hL] at h
        have hr1 : r1 = none := by
          have := congrArg Prod.fst h
          simpa using this
        have hout : out = Elem.mk t a2 x cs1 := by
          have := congrArg Prod.snd h
          simpa using this.symm
        subst hr1
        subst hout
        have hy2 : y ∈ Elem.mk t a2 x cs1 :: allElemsList cs1 := hy
        rcases List.mem_cons.mp hy2 with rfl | hy3
        · intro _
          exact updateAppNAttrs_success a a2 hU
        · exact update_app_n_list_good cs ih cs1 hL y hy3
      · exfalso
        have := congrArg Prod.fst h
        simp at this
    · rw [if_neg ht] at h
      rcases hL : update_app_n_list cs with ⟨r1, cs1⟩
      rw [hL] at h
      have hr1 : r1 = none := by
        have := congrArg Prod.fst h
        simpa using this
      have hout : out = Elem.mk t a x cs1 := by
        have := congrArg Prod.snd h
        simpa using this.symm
      subst hr1
      subst hout
      have hy2 : y ∈ Elem.mk t a x cs1 :: allElemsList cs1 := hy
      rcases List.mem_cons.mp hy2 with rfl | hy3
      · intro htag
        exact absurd htag ht
      · exact update_app_n_list_good cs ih cs1 hL y hy3

/-- The elements of the injected header, spelled out. -/
theorem allElems_teiHeader (ws : List String) :
    allElems (teiHeaderElem ws) =
      teiHeaderElem ws ::
        Elem.mk "sourceDesc" [] none
          [Elem.mk "listWit" [] none
            (ws.map (fun w => Elem.mk "witness" [("n", w)] none []))] ::
        Elem.mk "listWit" [] none
          (ws.map (fun w => Elem.mk "witness" [("n", w)] none [])) ::
        ws.map (fun w => Elem.mk "witness" [("n", w)] none []) := by
  simp only [teiHeaderElem, allElems, allElemsList, allElemsList_witness_map,
    List.append_nil, List.cons_append, List.nil_append]

/-- No element of the injected header is an `<app>`. -/
theorem teiHeader_no_app (ws : List String) (y : Elem)
    (hy : y ∈ allElems (teiHeaderElem ws)) : y.tag ≠ "app" := by
  rw [allElems_teiHeader] at hy
  rcases List.mem_cons.mp hy with rfl | hy
  · intro hcontra
    simp [teiHeaderElem, Elem.tag] at hcontra
  · rcases List.mem_cons.mp hy with rfl | hy
    · intro hcontra
      simp [Elem.tag] at hcontra
    · rcases List.mem_cons.mp hy with rfl | hy
      · intro hcontra
        simp [Elem.tag] at hcontra
      · rcases List.mem_map.mp hy with ⟨w, _, rfl⟩
        intro hcontra
        simp [Elem.tag] at hcontra

/-- Inserting the header preserves `from`/`to`-freedom of every `<app>`
element, over a child list. -/
theorem insertHeaderList_pres (h0 : Elem)
    (hh : ∀ y ∈ allElems h0, appFromToFree y) :
    ∀ cs : List Elem,
      (∀ c ∈ cs, (∀ y ∈ allElems c, appFromToFree y) →
        ∀ y ∈ allElems (insertHeader h0 c).2, appFromToFree y) →
      (∀ y ∈ allElemsList cs, appFromToFree y) →
      ∀ b cs2, insertHeaderList h0 cs = (b, cs2) →
      ∀ y ∈ allElemsList cs2, appFromToFree y := by
  intro cs
  induction cs with
  | nil =>
    intro _ _ b cs2 h y hy
    rw [insertHeaderList] at h
    rcases h with ⟨⟩
    cases hy
  | cons c cs ih =>
    intro ihm hcs b cs2 h y hy
    rw [insertHeaderList] at h
    rcases hc : insertHeader h0 c with ⟨bc, c2⟩
    rw [hc] at h
    have hcsc : ∀ z ∈ allElems c, appFromToFree z := fun z hz =>
      hcs z (by rw [allElemsList]; exact List.mem_append.mpr (Or.inl hz))
    have hcss : ∀ z ∈ allElemsList cs, appFromToFree z := fun z hz =>
      hcs z (by rw [allElemsList]; exact List.mem_append.mpr (Or.inr hz))
    rcases bc with _ | _
    · rcases hL : insertHeaderList h0 cs with ⟨b1, cs1⟩
      rw [hL] at h
      rcases h with ⟨⟩
      rw [allElemsList] at hy
      rcases List.mem_append.mp hy with hy | hy
      · exact hcsc y hy
      · exact ih (fun d hd hP => ihm d (List.mem_cons_of_mem c hd) hP) hcss
          _ _ hL y hy
    · rcases h with ⟨⟩
      rw [allElemsList] at hy
      rcases List.mem_append.mp hy with hy | hy
      · exact ihm c (List.mem_cons_self c cs) hcsc y (by rw [hc]; exact hy)
      · exact hcss y hy

/-- Inserting the header preserves `from`/`to`-freedom of every `<app>`
element of the tree. -/
theorem insertHeader_pres (h0 : Elem)
    (hh : ∀ y ∈ allElems h0, appFromToFree y) :
    ∀ e : Elem, (∀ y ∈ allElems e, appFromToFree y) →
      ∀ y ∈ allElems (insertHeader h0 e).2, appFromToFree y := by
  intro e
  induction e using elemInd with
  | h t a x cs ih =>
    intro he y hy
    rw [insertHeader] at hy
    by_cases ht : t = "TEI"
    · rw [if_pos ht] at hy
      have hy2 : y ∈ Elem.mk t a x (h0 :: cs) :: allElemsList (h0 :: cs) := hy
      rcases List.mem_cons.mp hy2 with rfl | hy3
      · have hroot := he (Elem.mk t a x cs) (self_mem_allElems _)
        exact hroot
      · rw [allElemsList] at hy3
        rcases List.mem_append.mp hy3 with hy4 | hy4
        · exact hh y hy4
        · exact he y (show y ∈ Elem.mk t a x cs :: allElemsList cs from
            List.mem_cons_of_mem _ hy4)
    · rw [if_neg ht] at hy
      rcases hL : insertHeaderList h0 cs with ⟨b1, cs1⟩
      rw [hL] at hy
      have hy2 : y ∈ Elem.mk t a x cs1 :: allElemsList cs1 := hy
      rcases List.mem_cons.mp hy2 with rfl | hy3
      · have hroot := he (Elem.mk t a x cs) (self_mem_allElems _)
        exact hroot
      · exact insertHeaderList_pres h0 hh cs (fun c hc hP => ih c hc hP)
          (fun z hz => he z (show z ∈ Elem.mk t a x cs :: allElemsList cs from
            List.mem_cons_of_mem _ hz)) b1 cs1 hL y hy3

/-- The pruning pass over a child list removes every unit-less apparatus
below, given the same for each child. -/
theorem strip_unitless_list_good (cs : List Elem)
    (ihm : ∀ c ∈ cs, isUnitlessApp c = false →
      ∀ y ∈ allElems (strip_unitless_apps c), isUnitlessApp y = false) :
    ∀ y ∈ allElemsList (strip_unitless_apps_list cs),
      isUnitlessApp y = false := by
  induction cs with
  | nil => intro y hy; cases hy
  | cons c cs ih =>
    intro y hy
    rw [strip_unitless_apps_list] at hy
    by_cases hu : isUnitlessApp c = true
    · rw [if_pos hu] at hy
      exact ih (fun d hd => ihm d (List.mem_cons_of_mem c hd)) y hy
    · rw [if_neg hu] at hy
      have hy2 : y ∈ allElems (strip_unitless_apps c) ++
          allElemsList (strip_unitless_apps_list cs) := hy
      rcases List.mem_append.mp hy2 with hy3 | hy3
      · exact ihm c (List.mem_cons_self c cs) (Bool.eq_false_iff.mpr hu) y hy3
      · exact ih (fun d hd => ihm d (List.mem_cons_of_mem c hd)) y hy3

/-- After the pruning pass, no unit-less apparatus remains anywhere in the
tree (provided the root itself is not one; `main` applies the pass to a
document rooted at `<TEI>`). -/
theorem strip_unitless_good (e : Elem) (he : isUnitlessApp e = false) :
    ∀ y ∈ allElems (strip_unitless_apps e), isUnitlessApp y = false := by
  induction e using elemInd with
  | h t a x cs ih =>
    intro y hy
    rw [strip_unitless_apps] at hy
    have hy2 : y ∈ Elem.mk t a x (strip_unitless_apps_list cs) ::
        allElemsList (strip_unitless_apps_list cs) := hy
    rcases List.mem_cons.mp hy2 with rfl | hy3
    · exact he
    · exact strip_unitless_list_good cs ih y hy3

/-- Claim **C9**, counterexample: the pipeline output for the worked example
*does* contain an apparatus element lacking both `from` and `to` — the
renumbering pass removed those attributes from the surviving apparatus. -/
theorem C9_fromto_counterexample :
    (pipeline docEx1).map hasUnitlessApp = some true := rfl

/-- Claim **C9**, amended: immediately after the unit-less pruning pass no
apparatus lacking both `from` and `to` remains (when the root is not itself
one); but after the *full* pipeline every apparatus element lacks both `from`
and `to`, because the renumbering pass folds them into `n` and removes them. -/
theorem C9_fromto_amended :
    (∀ e, isUnitlessApp e = false →
       ∀ y ∈ allElems (strip_unitless_apps e), isUnitlessApp y = false) ∧
    (∀ e out, pipeline e = some out →
       ∀ y ∈ allElems out, y.tag = "app" →
         getAttr y "from" = none ∧ getAttr y "to" = none) := by
  constructor
  · exact strip_unitless_good
  · intro e out h
    rw [pipeline] at h
    rcases h6 : add_app_notes (sub_segs_for_apps (strip_om_text
        (unescape_underdots (strip_wit_subelements
          (strip_unitless_apps e))))) with ⟨r6, e6⟩
    rw [h6] at h
    rcases r6 with _ | err
    · have h2 : (match update_app_n e6 with
          | (some _, _) => none
          | (none, e7) => add_tei_header e7) = some out := h
      rcases h7 : update_app_n e6 with ⟨r7, e7⟩
      rw [h7] at h2
      rcases r7 with _ | err
      · have h3 : add_tei_header e7 = some out := h2
        rcases hw : get_wits e7 with _ | ws
        · rw [add_tei_header, hw] at h3
          cases h3
        · have h4 : (match insertHeader (teiHeaderElem ws) e7 with
              | (true, x) => some x
              | (false, _) => none) = some out := by
            rw [add_tei_header, hw] at h3
            exact h3
          rcases hi : insertHeader (teiHeaderElem ws) e7 with ⟨b, e8⟩
          rw [hi] at h4
          rcases b with _ | _
          · cases h4
          · rcases h4 with ⟨⟩
            have hgood7 : ∀ y ∈ allElems e7, appFromToFree y :=
              update_app_n_good e6 e7 h7
            have hgoodH : ∀ y ∈ allElems (teiHeaderElem ws),
                appFromToFree y := by
              intro y hy htag
              exact absurd htag (teiHeader_no_app ws y hy)
            intro y hy htag
            have h8 : y ∈ allElems (insertHeader (teiHeaderElem ws) e7).2 := by
              rw [hi]
              exact hy
            exact insertHeader_pres (teiHeaderElem ws) hgoodH e7 hgood7 y h8 htag
      · cases h2
    · cases h

/-- A placeholder element (used only as the default of `List.getD`). -/
def emptyElem : Elem := .mk "" [] none []

/-- The pipeline output on the worked example. -/
def outEx1 : Elem := (pipeline docEx1).getD emptyElem

/-- The single apparatus element of that output. -/
def appOut1 : Elem := (appElems outEx1).getD 0 emptyElem

/-- Witness for `C9_fromto_amended` at the worked example: its document
survives pruning with no unit-less apparatus, and the apparatus of the final
output lacks both `from` and `to`. -/
theorem C9_fromto_amended_witness :
    (isUnitlessApp docEx1 = false ∧
     isUnitlessApp (strip_unitless_apps docEx1) = false) ∧
    (pipeline docEx1 = some outEx1 ∧ appOut1.tag = "app" ∧
     getAttr appOut1 "from" = none ∧ getAttr appOut1 "to" = none) := by
  have h1 := C9_fromto_amended.1 docEx1 rfl (strip_unitless_apps docEx1)
    (self_mem_allElems _)
  have hpipe : pipeline docEx1 = some outEx1 := rfl
  have hmem : appOut1 ∈ allElems outEx1 := by
    have happ : appElems outEx1 = [appOut1] := rfl
    have hm : appOut1 ∈ appElems outEx1 := by
      rw [happ]
      exact List.mem_cons_self _ _
    exact List.mem_of_mem_filter hm
  have h2 := C9_fromto_amended.2 docEx1 outEx1 hpipe appOut1 hmem rfl
  exact ⟨⟨rfl, h1⟩, hpipe, rfl, h2.1, h2.2⟩

end ItseeToOpenCbgm
